import Mathlib

/-!
# Verification of the omiros reconciliation core

A shallow embedding, in Lean 4, of the reconciliation core of the `omiros`
host-configuration tool (Rust), together with theorems settling the frozen
specification claims.

Conventions of the embedding:
* Rust `HashSet<T>` becomes `Finset T`; `Vec<T>` becomes `List T`.
* External commands are abstracted at the process boundary: their outcomes
  (read results, write exit statuses) are explicit parameters, and the side
  effects a function issues (write commands, process restarts, filesystem
  mutations) are returned explicitly as traces or counters.
* A Rust panic (`todo!()`, `expect`) is a distinguished outcome, disjoint
  from any returned `Result` value.
* Filesystem paths are component lists; the filesystem is a flat association
  list from paths to nodes (file, directory, symlink-with-stored-target),
  modelling the filesystem boundary of spec section 6 (symlink creation and
  removal, target readback, parent-directory creation, metadata queries that
  distinguish symlinks from regular files/directories).
-/

namespace Omiros

/-! ## Homebrew reconciler (src/brew.rs) -/

/-- Desired Homebrew configuration: optional lists of formulae and casks. -/
structure Brew where
  formulae : Option (List String)
  casks : Option (List String)

/-- Set of currently installed Homebrew packages (`HashSet<String>` fields). -/
structure InstalledBrewPackages where
  formulae : Finset String
  casks : Finset String

/-- Missing Homebrew packages, in desired order. -/
structure MissingBrewPackages where
  formulae : List String
  casks : List String
deriving DecidableEq

/-- `brew::find_missing_packages`: for each of formulae and casks (when the
desired list is present), walk the desired list in order and push every
entry not contained in the installed set. -/
def find_missing_packages (desired : Brew) (installed : InstalledBrewPackages) :
    MissingBrewPackages :=
  let formulae :=
    match desired.formulae with
    | some fs => fs.foldl (fun acc f => if f ∈ installed.formulae then acc else acc.concat f) []
    | none => []
  let casks :=
    match desired.casks with
    | some cs => cs.foldl (fun acc c => if c ∈ installed.casks then acc else acc.concat c) []
    | none => []
  ⟨formulae, casks⟩

/-! ## Mac App Store reconciler (src/mas.rs) -/

/-- A Mac App Store application record: free-text name and store id
(both strings; the id is the decimal text of the numeric store id). -/
structure App where
  name : String
  id : String
deriving DecidableEq

/-- Desired Mac App Store configuration. -/
structure Mas where
  apps : List App

/-- Currently installed Mac App Store apps (`HashSet<App>`; membership uses
the derived record equality on `App`, i.e. on both `name` and `id`). -/
structure InstalledMasApps where
  apps : Finset App

/-- Missing Mac App Store apps, in desired order. -/
structure MissingMasApps where
  apps : List App
deriving DecidableEq

/-- `mas::find_missing_apps`: walk the desired apps in order and push every
app not contained (as a full `App` record) in the installed set. -/
def find_missing_apps (desired : Mas) (installed : InstalledMasApps) : MissingMasApps :=
  ⟨desired.apps.foldl (fun acc a => if a ∈ installed.apps then acc else acc.concat a) []⟩

/-! ### Generic lemma: the push-if-absent loop is a filter -/

theorem foldl_concat_if_filter {α : Type _} (p : α → Prop) [DecidablePred p]
    (l acc : List α) :
    l.foldl (fun acc a => if p a then acc else acc.concat a) acc
      = acc ++ l.filter (fun a => ¬ p a) := by
  induction l generalizing acc with
  | nil => simp
  | cons x xs ih =>
    rw [List.foldl_cons, ih]
    by_cases hx : p x <;> simp [hx, List.concat_eq_append, List.filter_cons]

/-- **C1.** For every desired list and installed set, the computed missing
collection is exactly the sublist of desired elements absent from the
installed set, in desired order, duplicates retained: this holds for the
Homebrew reconciler (formulae and casks independently; an absent optional
desired list behaves as the empty list) and for the Mac App Store
reconciler. -/
theorem find_missing_is_ordered_filter (d : Brew) (inst : InstalledBrewPackages)
    (m : Mas) (minst : InstalledMasApps) :
    (find_missing_packages d inst).formulae
        = (d.formulae.getD []).filter (fun f => ¬ f ∈ inst.formulae)
    ∧ (find_missing_packages d inst).casks
        = (d.casks.getD []).filter (fun c => ¬ c ∈ inst.casks)
    ∧ (find_missing_apps m minst).apps
        = m.apps.filter (fun a => ¬ a ∈ minst.apps) := by
  refine ⟨?_, ?_, ?_⟩
  · cases h : d.formulae with
    | none => simp [find_missing_packages, h]
    | some fs =>
      simpa [find_missing_packages, h] using
        foldl_concat_if_filter (fun f => f ∈ inst.formulae) fs []
  · cases h : d.casks with
    | none => simp [find_missing_packages, h]
    | some cs =>
      simpa [find_missing_packages, h] using
        foldl_concat_if_filter (fun c => c ∈ inst.casks) cs []
  · simpa [find_missing_apps] using
      foldl_concat_if_filter (fun a => a ∈ minst.apps) m.apps []

/-! ## Idempotent scalar writer (src/defaults.rs)

The `defaults` external commands are abstracted at the process boundary:
the outcome of the initial `defaults read` is a parameter
(`readResult`), and the exit status of the `defaults write` command is a
parameter (`writeSucceeds`).  The function returns the list of write
commands it issued; a Rust panic (the `todo!()` branch) is modelled as the
`Option` value `none`, disjoint from every returned `Result`. -/

/-- `defaults::DefaultsError` (string payloads kept). -/
inductive DefaultsError where
  | commandFailed (msg : String)
  | parseError (msg : String)
  | utf8Error
deriving DecidableEq

instance {ε α : Type _} [DecidableEq ε] [DecidableEq α] : DecidableEq (Except ε α) := fun a b =>
  match a, b with
  | .ok x, .ok y =>
    if h : x = y then isTrue (by rw [h]) else isFalse (fun hh => by cases hh; exact h rfl)
  | .error x, .error y =>
    if h : x = y then isTrue (by rw [h]) else isFalse (fun hh => by cases hh; exact h rfl)
  | .ok _, .error _ => isFalse (fun hh => by cases hh)
  | .error _, .ok _ => isFalse (fun hh => by cases hh)

/-- One issued `defaults write <domain> <key> <flag> <value>` command. -/
structure WriteCmd where
  domain : String
  key : String
  flag : String
  value : String
deriving DecidableEq

/-- `impl DefaultsType for bool`, `parse_output`: matches exactly the four
texts `"0"`, `"false"`, `"1"`, `"true"`; anything else is a parse error. -/
def boolParseOutput (s : String) : Except DefaultsError Bool :=
  match s with
  | "0" | "false" => .ok false
  | "1" | "true" => .ok true
  | s => .error (.parseError ("Unable to parse " ++ s ++ " as -bool"))

/-- Serialization used by `write_defaults` for booleans: Rust's
`Display for bool` (`to_string`), i.e. lowercase `"true"` / `"false"`. -/
def boolToStringRust (b : Bool) : String :=
  if b then "true" else "false"

/-- The `-bool` type flag of `impl DefaultsType for bool`. -/
def boolTypeFlag : String := "-bool"

/-- `defaults::write_defaults`: read the current value; if it equals the
new value, report unchanged with no write; otherwise issue one typed write
and report changed, or surface a command failure when the write command's
exit status is unsuccessful.  When the initial read fails, the Rust code
hits `todo!()`: modelled as `none` (panic), with no write issued. -/
def write_defaults {T : Type} [DecidableEq T] (typeFlag : String) (serialize : T → String)
    (domain key : String) (readResult : Except DefaultsError T) (newValue : T)
    (writeSucceeds : Bool) :
    Option (Except DefaultsError Bool) × List WriteCmd :=
  match readResult with
  | .ok currentValue =>
    if currentValue = newValue then
      (some (.ok false), [])
    else
      let cmd : WriteCmd := ⟨domain, key, typeFlag, serialize newValue⟩
      if writeSucceeds then
        (some (.ok true), [cmd])
      else
        (some (.error (.commandFailed ("defaults write failed for " ++ domain ++ "." ++ key))),
          [cmd])
  | .error _ => (none, [])

/-- **C2.** When the initial read succeeds: equal values give result
`unchanged` (`false`) with no write command issued; differing values issue
exactly one typed write (with the type flag and the serialized new value)
and give result `changed` (`true`) when the write command succeeds, or a
command-failure error when it does not. -/
theorem write_defaults_read_ok_behavior {T : Type} [DecidableEq T]
    (typeFlag : String) (serialize : T → String) (domain key : String)
    (cur newV : T) (ws : Bool) :
    (cur = newV →
      write_defaults typeFlag serialize domain key (.ok cur) newV ws
        = (some (.ok false), []))
    ∧ (cur ≠ newV → ws = true →
      write_defaults typeFlag serialize domain key (.ok cur) newV ws
        = (some (.ok true), [⟨domain, key, typeFlag, serialize newV⟩]))
    ∧ (cur ≠ newV → ws = false →
      write_defaults typeFlag serialize domain key (.ok cur) newV ws
        = (some (.error (.commandFailed
            ("defaults write failed for " ++ domain ++ "." ++ key))),
          [⟨domain, key, typeFlag, serialize newV⟩])) := by
  refine ⟨fun h => ?_, fun h hw => ?_, fun h hw => ?_⟩
  · simp [write_defaults, h]
  · simp [write_defaults, h, hw]
  · simp [write_defaults, h, hw]

/-- Witness for `write_defaults_read_ok_behavior` at concrete inputs. -/
theorem write_defaults_read_ok_behavior_witness :
    write_defaults boolTypeFlag boolToStringRust "com.apple.dock" "autohide"
        (.ok true) true true = (some (.ok false), [])
    ∧ write_defaults boolTypeFlag boolToStringRust "com.apple.dock" "autohide"
        (.ok false) true true
        = (some (.ok true), [⟨"com.apple.dock", "autohide", "-bool", "true"⟩])
    ∧ write_defaults boolTypeFlag boolToStringRust "com.apple.dock" "autohide"
        (.ok false) true false
        = (some (.error (.commandFailed "defaults write failed for com.apple.dock.autohide")),
          [⟨"com.apple.dock", "autohide", "-bool", "true"⟩]) := by
  refine ⟨?_, ?_, ?_⟩
  · exact (write_defaults_read_ok_behavior boolTypeFlag boolToStringRust
      "com.apple.dock" "autohide" true true true).1 rfl
  · exact (write_defaults_read_ok_behavior boolTypeFlag boolToStringRust
      "com.apple.dock" "autohide" false true true).2.1 (by decide) rfl
  · exact (write_defaults_read_ok_behavior boolTypeFlag boolToStringRust
      "com.apple.dock" "autohide" false true false).2.2 (by decide) rfl

/-- **C10.** Whenever the initial read fails (for any reason, including a
never-set key), `write_defaults` issues no write command and returns no
`Result` value at all: it falls into the `todo!()` branch, modelled as the
panic outcome `none` — so the distinguished "unset" outcome is unreachable
as a returned value. -/
theorem write_defaults_read_error_panics {T : Type} [DecidableEq T]
    (typeFlag : String) (serialize : T → String) (domain key : String)
    (e : DefaultsError) (newV : T) (ws : Bool) :
    write_defaults typeFlag serialize domain key (.error e) newV ws = (none, []) := by
  simp [write_defaults]

/-- **C8, counterexample.** The boolean tag's read parser is not
case-insensitive: the texts `"TRUE"` and `"True"` do not parse as `true`
(they are parse errors), contradicting the claim that `"TRUE"` and
`"True"` parse as `true`. -/
theorem bool_parse_case_sensitive_counterexample :
    boolParseOutput "TRUE" ≠ .ok true
    ∧ boolParseOutput "True" ≠ .ok true
    ∧ boolParseOutput "TRUE"
        = .error (.parseError "Unable to parse TRUE as -bool") := by
  refine ⟨?_, ?_, ?_⟩ <;> decide

/-- **C8, amended.** The boolean type tag parses exactly the four external
texts `"0"`, `"1"`, `"true"`, `"false"` (case-sensitively, lowercase
only), maps any other text — including uppercase variants — to a parse
error, and serializes booleans as canonical lowercase text on write. -/
theorem bool_parse_exact_tokens :
    boolParseOutput "0" = .ok false
    ∧ boolParseOutput "false" = .ok false
    ∧ boolParseOutput "1" = .ok true
    ∧ boolParseOutput "true" = .ok true
    ∧ (∀ s b, boolParseOutput s = .ok b → s = "0" ∨ s = "false" ∨ s = "1" ∨ s = "true")
    ∧ (∀ s, s ≠ "0" → s ≠ "false" → s ≠ "1" → s ≠ "true" →
        boolParseOutput s = .error (.parseError ("Unable to parse " ++ s ++ " as -bool")))
    ∧ boolToStringRust true = "true"
    ∧ boolToStringRust false = "false" := by
  refine ⟨by decide, by decide, by decide, by decide, ?_, ?_, by decide, by decide⟩
  · intro s b h
    unfold boolParseOutput at h
    split at h
    · exact Or.inl rfl
    · exact Or.inr (Or.inl rfl)
    · exact Or.inr (Or.inr (Or.inl rfl))
    · exact Or.inr (Or.inr (Or.inr rfl))
    · exact absurd h (by simp)
  · intro s h0 hf h1 ht
    unfold boolParseOutput
    split
    · exact absurd rfl h0
    · exact absurd rfl hf
    · exact absurd rfl h1
    · exact absurd rfl ht
    · rfl

/-- Witness for `bool_parse_exact_tokens` at concrete inputs. -/
theorem bool_parse_exact_tokens_witness :
    ((boolParseOutput "true" = Except.ok true → ("true" : String) = "0" ∨ "true" = "false"
        ∨ "true" = "1" ∨ ("true" : String) = "true")
      ∧ boolParseOutput "yes"
          = .error (.parseError "Unable to parse yes as -bool")) :=
  ⟨fun h => bool_parse_exact_tokens.2.2.2.2.1 "true" true h,
    bool_parse_exact_tokens.2.2.2.2.2.1 "yes" (by decide) (by decide) (by decide) (by decide)⟩

/-! ## Dock settings applier (src/macos.rs)

The external world is abstracted at the process boundary: the outcomes of
the three `defaults read` queries and the exit statuses of the three
`defaults write` commands are parameters.  Each function additionally
returns the ordered trace of external mutating commands it issued (the
three typed writes and the `killall Dock` restart); reads are not traced.
Evaluation is pure, so modelling the three setters as values and letting
the applier discard the later traces on an early error is observationally
the short-circuiting of the Rust `?` operator. -/

/-- `macos::MacOSError` (payload of `ReadError` elided). -/
inductive MacOSError where
  | readError
  | parseError
  | writeError
deriving DecidableEq

/-- `macos::DockOrientation`. -/
inductive MacDockOrientation where
  | left
  | bottom
  | right
deriving DecidableEq

/-- `macos::Dock`: the three optional desired dock settings. -/
structure Dock where
  orientation : Option MacDockOrientation
  autohide : Option Bool
  iconSize : Option Nat

/-- External mutating commands issued by the dock applier. -/
inductive DockEvent where
  | writeOrientation
  | writeAutohide
  | writeIconSize
  | restartDock
deriving DecidableEq

/-- Outcomes of the external `defaults` commands used by the dock applier. -/
structure DockWorld where
  readOrientation : Except MacOSError MacDockOrientation
  readAutohide : Except MacOSError Bool
  readIconSize : Except MacOSError Nat
  writeOrientationOk : Bool
  writeAutohideOk : Bool
  writeIconSizeOk : Bool

/-- Common shape of `set_dock_orientation` / `set_dock_autohide` /
`set_dock_icon_size`: read the current value (propagating read/parse
failure); if it differs from the desired value issue one write (`ev`),
returning changed on success and a write error on failure; otherwise
report unchanged with no write. -/
def setterStep {α : Type} [DecidableEq α] (readRes : Except MacOSError α)
    (writeOk : Bool) (desired : α) (ev : DockEvent) :
    Except MacOSError Bool × List DockEvent :=
  match readRes with
  | .error e => (.error e, [])
  | .ok current =>
    if current = desired then
      (.ok false, [])
    else if writeOk then
      (.ok true, [ev])
    else
      (.error .writeError, [ev])

/-- `macos::set_dock_orientation`. -/
def set_dock_orientation (w : DockWorld) (o : MacDockOrientation) :
    Except MacOSError Bool × List DockEvent :=
  setterStep w.readOrientation w.writeOrientationOk o .writeOrientation

/-- `macos::set_dock_autohide`. -/
def set_dock_autohide (w : DockWorld) (b : Bool) :
    Except MacOSError Bool × List DockEvent :=
  setterStep w.readAutohide w.writeAutohideOk b .writeAutohide

/-- `macos::set_dock_icon_size`. -/
def set_dock_icon_size (w : DockWorld) (n : Nat) :
    Except MacOSError Bool × List DockEvent :=
  setterStep w.readIconSize w.writeIconSizeOk n .writeIconSize

/-- The `if let Some(x) = dock.field && set_...(x)?` guard: an absent
desired field contributes `Ok(false)` (unchanged) and issues nothing. -/
def optSetter {α : Type} (f : α → Except MacOSError Bool × List DockEvent) :
    Option α → Except MacOSError Bool × List DockEvent
  | some a => f a
  | none => (.ok false, [])

/-- `macos::apply_dock_settings`: run the three setters in order (skipping
absent desired fields), OR their changed flags, and finally restart the
Dock (`killall Dock`) exactly when some setter changed a value; a setter
error aborts immediately. -/
def apply_dock_settings (w : DockWorld) (dock : Dock) :
    Except MacOSError Unit × List DockEvent :=
  let s1 := optSetter (set_dock_orientation w) dock.orientation
  match s1.1 with
  | .error e => (.error e, s1.2)
  | .ok c1 =>
    let s2 := optSetter (set_dock_autohide w) dock.autohide
    match s2.1 with
    | .error e => (.error e, s1.2 ++ s2.2)
    | .ok c2 =>
      let s3 := optSetter (set_dock_icon_size w) dock.iconSize
      match s3.1 with
      | .error e => (.error e, s1.2 ++ s2.2 ++ s3.2)
      | .ok c3 =>
        if c1 || c2 || c3 then
          (.ok (), s1.2 ++ s2.2 ++ s3.2 ++ [.restartDock])
        else
          (.ok (), s1.2 ++ s2.2 ++ s3.2)

/-- Facts about one setter's outcome used by the restart-discipline proof:
its trace is empty or its single write event, and a changed result forces
the write event. -/
def StepSpec (ev : DockEvent) (s : Except MacOSError Bool × List DockEvent) : Prop :=
  (s.2 = [] ∨ s.2 = [ev]) ∧ (s.1 = .ok true → s.2 = [ev])

theorem setterStep_stepSpec {α : Type} [DecidableEq α] (readRes : Except MacOSError α)
    (writeOk : Bool) (desired : α) (ev : DockEvent) :
    StepSpec ev (setterStep readRes writeOk desired ev) := by
  cases readRes with
  | error e => exact ⟨Or.inl rfl, fun h => by simp [setterStep] at h⟩
  | ok current =>
    by_cases hc : current = desired
    · exact ⟨Or.inl (by simp [setterStep, hc]), fun h => by simp [setterStep, hc] at h⟩
    · cases writeOk with
      | true => exact ⟨Or.inr (by simp [setterStep, hc]), fun _ => by simp [setterStep, hc]⟩
      | false => exact ⟨Or.inr (by simp [setterStep, hc]), fun h => by simp [setterStep, hc] at h⟩

theorem optSetter_stepSpec {α : Type} (ev : DockEvent)
    (f : α → Except MacOSError Bool × List DockEvent)
    (hf : ∀ a, StepSpec ev (f a)) (o : Option α) :
    StepSpec ev (optSetter f o) := by
  cases o with
  | none => exact ⟨Or.inl rfl, fun h => by simp [optSetter] at h⟩
  | some a => exact hf a

/-- **C9.** In one call to the dock settings applier, the Dock restart
command appears at most once in the issued-command trace; when it appears,
the call succeeded, the trace consists of all the issued writes followed
by the single restart (so the restart runs after every write, never
interleaved), and at least one write was issued (each issued write is one
that actually changed a value, since unchanged settings issue no write and
a failed write aborts before the restart); when it does not appear, the
trace is writes only. -/
theorem apply_dock_settings_restart_discipline (w : DockWorld) (d : Dock) :
    ((apply_dock_settings w d).2.count DockEvent.restartDock ≤ 1)
    ∧ (DockEvent.restartDock ∈ (apply_dock_settings w d).2 →
        (apply_dock_settings w d).1 = .ok ()
        ∧ (apply_dock_settings w d).2
            = (apply_dock_settings w d).2.filter (fun e => ¬ e = DockEvent.restartDock)
              ++ [DockEvent.restartDock]
        ∧ (apply_dock_settings w d).2.filter (fun e => ¬ e = DockEvent.restartDock) ≠ [])
    ∧ (¬ DockEvent.restartDock ∈ (apply_dock_settings w d).2 →
        (apply_dock_settings w d).2.filter (fun e => ¬ e = DockEvent.restartDock)
          = (apply_dock_settings w d).2) := by
  have hs1 : StepSpec .writeOrientation (optSetter (set_dock_orientation w) d.orientation) :=
    optSetter_stepSpec _ _
      (fun o => setterStep_stepSpec w.readOrientation w.writeOrientationOk o _) d.orientation
  have hs2 : StepSpec .writeAutohide (optSetter (set_dock_autohide w) d.autohide) :=
    optSetter_stepSpec _ _
      (fun b => setterStep_stepSpec w.readAutohide w.writeAutohideOk b _) d.autohide
  have hs3 : StepSpec .writeIconSize (optSetter (set_dock_icon_size w) d.iconSize) :=
    optSetter_stepSpec _ _
      (fun n => setterStep_stepSpec w.readIconSize w.writeIconSizeOk n _) d.iconSize
  unfold apply_dock_settings
  set s1 := optSetter (set_dock_orientation w) d.orientation
  set s2 := optSetter (set_dock_autohide w) d.autohide
  set s3 := optSetter (set_dock_icon_size w) d.iconSize
  clear_value s1 s2 s3
  obtain ⟨r1, t1⟩ := s1
  obtain ⟨r2, t2⟩ := s2
  obtain ⟨r3, t3⟩ := s3
  obtain ⟨h1t, h1c⟩ := hs1
  obtain ⟨h2t, h2c⟩ := hs2
  obtain ⟨h3t, h3c⟩ := hs3
  simp only at h1t h1c h2t h2c h3t h3c
  cases r1 with
  | error e =>
    rcases h1t with h | h <;> subst h <;> simp
  | ok c1 =>
    cases r2 with
    | error e =>
      rcases h1t with h | h <;> rcases h2t with h' | h' <;> subst h <;> subst h' <;> simp
    | ok c2 =>
      cases r3 with
      | error e =>
        rcases h1t with h | h <;> rcases h2t with h' | h' <;> rcases h3t with h'' | h'' <;>
          subst h <;> subst h' <;> subst h'' <;> simp
      | ok c3 =>
        cases c1 with
        | true =>
          have := h1c rfl
          subst this
          rcases h2t with h' | h' <;> rcases h3t with h'' | h'' <;>
            subst h' <;> subst h'' <;> simp
        | false =>
          cases c2 with
          | true =>
            have := h2c rfl
            subst this
            rcases h1t with h | h <;> rcases h3t with h'' | h'' <;>
              subst h <;> subst h'' <;> simp
          | false =>
            cases c3 with
            | true =>
              have := h3c rfl
              subst this
              rcases h1t with h | h <;> rcases h2t with h' | h' <;>
                subst h <;> subst h' <;> simp
            | false =>
              rcases h1t with h | h <;> rcases h2t with h' | h' <;> rcases h3t with h'' | h'' <;>
                subst h <;> subst h' <;> subst h'' <;> simp

/-- Witness for `apply_dock_settings_restart_discipline`: a world in which
all three settings differ from their desired values and all writes
succeed, so the trace is the three writes followed by one restart. -/
theorem apply_dock_settings_restart_discipline_witness :
    (apply_dock_settings ⟨.ok .left, .ok false, .ok 36, true, true, true⟩
        ⟨some .bottom, some true, some 48⟩).1 = .ok ()
    ∧ (apply_dock_settings ⟨.ok .left, .ok false, .ok 36, true, true, true⟩
        ⟨some .bottom, some true, some 48⟩).2
        = (apply_dock_settings ⟨.ok .left, .ok false, .ok 36, true, true, true⟩
            ⟨some .bottom, some true, some 48⟩).2.filter (fun e => ¬ e = DockEvent.restartDock)
          ++ [DockEvent.restartDock]
    ∧ (apply_dock_settings ⟨.ok .left, .ok false, .ok 36, true, true, true⟩
        ⟨some .bottom, some true, some 48⟩).2.filter (fun e => ¬ e = DockEvent.restartDock)
        ≠ [] :=
  (apply_dock_settings_restart_discipline
    ⟨.ok .left, .ok false, .ok 36, true, true, true⟩
    ⟨some .bottom, some true, some 48⟩).2.1 (by decide)

/-! ## Structured-text parser for `mas list` output (src/mas.rs) -/

/-- Rust `str::trim` over a character list: drop Unicode whitespace from
both ends. -/
def trimChars (cs : List Char) : List Char :=
  ((cs.dropWhile Char.isWhitespace).reverse.dropWhile Char.isWhitespace).reverse

/-- Modelled from the spec: the pest grammar file `grammars/mas_list.pest`
behind `MasListParser` is not among the sources, so the grammar is taken
from spec section 4.4: the leading field is a numeric identifier (greedy
longest run of digits); the trailing field is a parenthesized version
token anchored to the end of the line (the last parenthesized group);
everything between is the raw free-text name span.  Returns
`(id, raw name span, version)` as character lists, or `none` when the
line does not match this shape (no leading digits, or no trailing
parenthesized version). -/
def masListGrammar (cs : List Char) : Option (List Char × List Char × List Char) :=
  let id := cs.takeWhile Char.isDigit
  if id.isEmpty then none
  else
    let rest := cs.drop id.length
    match rest.reverse with
    | ')' :: rrest =>
      let rver := rrest.takeWhile (fun c => ¬ c = '(')
      match rrest.drop rver.length with
      | '(' :: rname => some (id, rname.reverse, rver.reverse)
      | _ => none
    | _ => none

/-- `mas::parse_mas_list_record`: trim the record, run the grammar, keep
the id verbatim and the name trimmed of surrounding whitespace (the
version is parsed but ignored).  The Rust function returns `App` and
panics (`expect`) on a failed parse: the panic is modelled as `none`. -/
def parse_mas_list_record (record : String) : Option App :=
  match masListGrammar (trimChars record.data) with
  | some (id, rawName, _ver) => some ⟨String.mk (trimChars rawName), String.mk id⟩
  | none => none

/-- **C4.** The two literal `mas list` lines parse to the claimed id/name
pairs: the trailing parenthesized version is anchored to the end of the
line, and the free-text name between id and version is trimmed of
surrounding whitespace but otherwise preserved verbatim, internal
parentheses and spaces included. -/
theorem parse_mas_list_record_literals :
    parse_mas_list_record "937984704   Amphetamine  (5.3.2)"
      = some ⟨"Amphetamine", "937984704"⟩
    ∧ parse_mas_list_record "1352211125  Tide Alert (NOAA) - Tide Chart  (3.2)"
      = some ⟨"Tide Alert (NOAA) - Tide Chart", "1352211125"⟩ := by
  constructor <;> decide

/-- Outcome of `mas::get_installed_apps`: a returned listing, a returned
error result (`Err` of `anyhow::Result`, reachable from the command and
UTF-8 failure paths), or a process-aborting panic. -/
inductive MasListOutcome where
  | ok (apps : Finset App)
  | err
  | panicked
deriving DecidableEq

/-- The `lines.map(parse_mas_list_record).collect()` pipeline: `none`
(panic) as soon as any line fails to parse, otherwise all parsed apps. -/
def collectApps : List String → Option (List App)
  | [] => some []
  | l :: ls =>
    match parse_mas_list_record l with
    | none => none
    | some a =>
      match collectApps ls with
      | none => none
      | some rest => some (a :: rest)

/-- `mas::get_installed_apps`: run `mas list` (a failing command or
non-UTF-8 output yields the returned error result `err`), then parse
every stdout line into the installed `HashSet<App>`; a line that fails to
parse panics through `expect` rather than returning an error. -/
def get_installed_apps (cmdOk : Bool) (stdoutLines : List String) : MasListOutcome :=
  if cmdOk then
    match collectApps stdoutLines with
    | none => .panicked
    | some apps => .ok apps.toFinset
  else
    .err

/-- **C5, counterexample.** A malformed line (here: no leading numeric id)
makes `get_installed_apps` panic — a process abort through `expect` — and
a panic is not a returned error result, contradicting the claim that the
malformed line is propagated to the caller as an error result. -/
theorem get_installed_apps_malformed_line_counterexample :
    get_installed_apps true ["937984704   Amphetamine  (5.3.2)", "Amphetamine (5.3.2)"]
      = MasListOutcome.panicked
    ∧ MasListOutcome.panicked ≠ MasListOutcome.err := by
  constructor <;> decide

theorem collectApps_eq_none (lines : List String) (l : String) (hl : l ∈ lines)
    (hbad : parse_mas_list_record l = none) : collectApps lines = none := by
  induction lines with
  | nil => cases hl
  | cons x xs ih =>
    rcases List.mem_cons.mp hl with h | h
    · subst h; simp [collectApps, hbad]
    · cases hx : parse_mas_list_record x <;> simp [collectApps, hx, ih h]

/-- **C5, amended.** A line that does not match the expected shape is a
hard failure: the installed-apps query aborts with a panic (through the
`expect` in `parse_mas_list_record`), never returning a partial listing
and never silently skipping the malformed line — but the failure is a
process abort, not an error result returned to the caller. -/
theorem get_installed_apps_malformed_aborts (lines : List String) (l : String)
    (hl : l ∈ lines) (hbad : parse_mas_list_record l = none) :
    get_installed_apps true lines = MasListOutcome.panicked := by
  simp [get_installed_apps, collectApps_eq_none lines l hl hbad]

/-- Witness for `get_installed_apps_malformed_aborts` at a concrete
listing containing a malformed line. -/
theorem get_installed_apps_malformed_aborts_witness :
    get_installed_apps true ["937984704   Amphetamine  (5.3.2)", "oops"]
      = MasListOutcome.panicked :=
  get_installed_apps_malformed_aborts _ "oops" (by decide) (by decide)

/-! ## Identity used by the Mac App Store membership test (claim C3) -/

/-- **C3, counterexample.** An installed app with the same numeric id but
a different free-text name does not make the desired app count as
installed: `find_missing_apps` still reports it missing, so the free-text
name does play a role in the membership test, contradicting the claim
that membership is decided by id alone. -/
theorem find_missing_apps_id_only_counterexample :
    find_missing_apps ⟨[⟨"Amphetamine", "937984704"⟩]⟩
        ⟨{⟨"Amphetamine Pro", "937984704"⟩}⟩
      = ⟨[⟨"Amphetamine", "937984704"⟩]⟩
    ∧ (⟨"Amphetamine Pro", "937984704"⟩ : App).id
        = (⟨"Amphetamine", "937984704"⟩ : App).id := by
  constructor <;> decide

/-- **C3, amended.** `find_missing_apps` treats a desired app as already
installed if and only if the installed set contains an app with the same
numeric id and the same free-text name (full record equality): the name
does participate in the membership test. -/
theorem find_missing_apps_full_record_membership (d : Mas) (inst : InstalledMasApps)
    (a : App) :
    a ∈ (find_missing_apps d inst).apps ↔
      a ∈ d.apps ∧ ¬ ∃ b ∈ inst.apps, b.id = a.id ∧ b.name = a.name := by
  have hfm : (find_missing_apps d inst).apps
      = d.apps.filter (fun x => ¬ x ∈ inst.apps) := by
    simpa [find_missing_apps] using
      foldl_concat_if_filter (fun x => x ∈ inst.apps) d.apps []
  have hmem : (∃ b ∈ inst.apps, b.id = a.id ∧ b.name = a.name) ↔ a ∈ inst.apps := by
    constructor
    · rintro ⟨b, hb, hid, hname⟩
      have : b = a := by cases a; cases b; simp_all
      exact this ▸ hb
    · intro ha
      exact ⟨a, ha, rfl, rfl⟩
  rw [hfm, List.mem_filter]
  simp [hmem]

/-! ## Symlink reconciler (src/dotfiles.rs)

The filesystem boundary (spec section 6) is modelled as a flat association
list from paths (component lists) to nodes: regular file, directory, or
symlink with its stored target path.  `symlink_metadata` is `fsLookup`
(no following), `read_link` returns the stored target (as the real
`read_link`, which does not follow or validate the target),
`remove_file` is `fsRemove`, symlink creation is `fsSet`, and
`create_dir_all` creates every missing ancestor as a directory.
`Path::exists` is modelled as the presence of a node at the path;
symlink-chain traversal inside the external filesystem is not modelled.
Every function returns the updated filesystem together with the number of
mutating filesystem operations performed (directory creations, symlink
removals, symlink creations). -/

/-- A filesystem path as a list of components. -/
abbrev FsPath := List String

/-- What occupies a path: regular file, directory, or symlink with its
stored target. -/
inductive FsNode where
  | file
  | dir
  | symlink (target : FsPath)
deriving DecidableEq

/-- A flat filesystem: association list from paths to nodes. -/
abbrev Fs := List (FsPath × FsNode)

/-- Node stored at `p`, if any (models `symlink_metadata`). -/
def fsLookup (fs : Fs) (p : FsPath) : Option FsNode :=
  match fs with
  | [] => none
  | (q, n) :: rest => if q = p then some n else fsLookup rest p

/-- Remove the node at `p` (models `remove_file`). -/
def fsRemove (fs : Fs) (p : FsPath) : Fs :=
  fs.filter (fun entry => ¬ entry.1 = p)

/-- Store node `n` at `p` (models symlink/file/directory creation). -/
def fsSet (fs : Fs) (p : FsPath) (n : FsNode) : Fs :=
  (p, n) :: fsRemove fs p

/-- `fs::create_dir_all`, walking the components of the requested path
left to right under the already-created base: each missing intermediate
path gets a directory node (one mutation each); existing nodes are left
alone. -/
def mkdirAllFrom (fs : Fs) (base : FsPath) : List String → Fs × Nat
  | [] => (fs, 0)
  | c :: rest =>
    let cur := base ++ [c]
    match fsLookup fs cur with
    | some _ => mkdirAllFrom fs cur rest
    | none =>
      let res := mkdirAllFrom (fsSet fs cur .dir) cur rest
      (res.1, res.2 + 1)

/-- `fs::create_dir_all` from the root. -/
def mkdirAll (fs : Fs) (p : FsPath) : Fs × Nat :=
  mkdirAllFrom fs [] p

/-- `dotfiles::DotfileEntry`: implicit (target mirrors the source path
under home) or explicit (independent source and target). -/
inductive DotfileEntry where
  | implicit (path : FsPath)
  | explicit (original link : FsPath)
deriving DecidableEq

/-- `dotfiles::Dotfiles`. -/
structure Dotfiles where
  files : List DotfileEntry

/-- `dotfiles::tilde_expand_path`: a path whose first component is the
home marker `~` has that leading component replaced by the home path
(`Path::starts_with("~/")` compares components, so a bare `~` also
qualifies); other components are never expanded. -/
def tilde_expand_path (p : FsPath) (home : FsPath) : FsPath :=
  match p with
  | "~" :: rest => home ++ rest
  | _ => p

/-- Resolve one entry to its `(original, link)` pair: implicit entries
join the path under both the dotfiles dir and home; explicit entries join
the original under the dotfiles dir and tilde-expand the link. -/
def resolveEntry (dotfilesDir home : FsPath) : DotfileEntry → FsPath × FsPath
  | .implicit p => (dotfilesDir ++ p, home ++ p)
  | .explicit original link => (dotfilesDir ++ original, tilde_expand_path link home)

/-- Errors surfaced by the dotfiles reconciler (`SetupError::DotfileError`
payloads abbreviated). -/
inductive DotErr where
  | dotfileError (msg : String)
deriving DecidableEq

/-- Message of the occupied-target error. -/
def occupiedMsg : String := "Link path already exists as a file/directory"

/-- Message of the missing-source error. -/
def missingOriginalMsg : String := "Original dotfile not found"

/-- Message of the missing-dotfiles-directory error. -/
def missingDirMsg : String := "Dotfiles directory not found"

/-- The guarded parent-directory creation
(`if !link_parent.exists() { fs::create_dir_all(link_parent)? }`). -/
def parentStep (fs : Fs) (parent : FsPath) : Fs × Nat :=
  if (fsLookup fs parent).isSome then (fs, 0) else mkdirAll fs parent

/-- The body of the `for entry in &dotfiles.files` loop of
`dotfiles::setup_dotfiles` for one entry: check the source exists, create
the target's parent directory if missing, classify the target path
(absent / symlink-to-source / symlink-elsewhere / occupied), and repair
it.  A symlink's stored target is compared with the resolved source path
(`fs::read_link` returns the stored target without following it; the
Rust `Err` branch for `read_link` cannot fire on a symlink node).
Returns the updated filesystem, the number of mutations performed, and
the error that aborts the run, if any. -/
def processEntry (dotfilesDir home : FsPath) (fs : Fs) (e : DotfileEntry) :
    Fs × Nat × Option DotErr :=
  let original := (resolveEntry dotfilesDir home e).1
  let link := (resolveEntry dotfilesDir home e).2
  if (fsLookup fs original).isSome then
    let step := parentStep fs link.dropLast
    match fsLookup step.1 link with
    | some (.symlink t) =>
      if t = original then
        (step.1, step.2, none)
      else
        (fsSet (fsRemove step.1 link) link (.symlink original), step.2 + 2, none)
    | some _ => (step.1, step.2, some (.dotfileError occupiedMsg))
    | none => (fsSet step.1 link (.symlink original), step.2 + 1, none)
  else
    (fs, 0, some (.dotfileError missingOriginalMsg))

/-- The entry loop: strictly in declared order, aborting at the first
entry that errors. -/
def runEntries (dotfilesDir home : FsPath) (fs : Fs) :
    List DotfileEntry → Fs × Nat × Option DotErr
  | [] => (fs, 0, none)
  | e :: es =>
    match processEntry dotfilesDir home fs e with
    | (fs1, w1, some er) => (fs1, w1, some er)
    | (fs1, w1, none) =>
      let res := runEntries dotfilesDir home fs1 es
      (res.1, w1 + res.2.1, res.2.2)

/-- `dotfiles::setup_dotfiles`: fail if the dotfiles directory is absent,
then process the entries in order. -/
def setup_dotfiles (dots : Dotfiles) (dotfilesDir home : FsPath) (fs : Fs) :
    Fs × Nat × Option DotErr :=
  if (fsLookup fs dotfilesDir).isSome then
    runEntries dotfilesDir home fs dots.files
  else
    (fs, 0, some (.dotfileError missingDirMsg))

/-! ### Filesystem lemmas -/

theorem fsLookup_fsRemove_ne (fs : Fs) (p q : FsPath) (h : ¬ q = p) :
    fsLookup (fsRemove fs p) q = fsLookup fs q := by
  induction fs with
  | nil => rfl
  | cons hd tl ih =>
    obtain ⟨r, n⟩ := hd
    by_cases hrp : r = p
    · subst hrp
      have hrq : ¬ r = q := fun hh => h hh.symm
      simpa [fsRemove, fsLookup, hrq] using ih
    · by_cases hrq : r = q
      · subst hrq
        simp [fsRemove, fsLookup, hrp]
      · simpa [fsRemove, fsLookup, hrp, hrq] using ih

theorem fsLookup_fsSet_self (fs : Fs) (p : FsPath) (n : FsNode) :
    fsLookup (fsSet fs p n) p = some n := by
  simp [fsSet, fsLookup]

theorem fsLookup_fsSet_ne (fs : Fs) (p q : FsPath) (n : FsNode) (h : ¬ q = p) :
    fsLookup (fsSet fs p n) q = fsLookup fs q := by
  have hpq : ¬ p = q := fun hh => h hh.symm
  simp only [fsSet, fsLookup, hpq, if_false]
  exact fsLookup_fsRemove_ne fs p q h

theorem mkdirAllFrom_preserves_some (comps : List String) :
    ∀ (fs : Fs) (base q : FsPath) (m : FsNode), fsLookup fs q = some m →
      fsLookup (mkdirAllFrom fs base comps).1 q = some m := by
  induction comps with
  | nil => intro fs base q m h; simpa [mkdirAllFrom] using h
  | cons c rest ih =>
    intro fs base q m h
    simp only [mkdirAllFrom]
    cases hc : fsLookup fs (base ++ [c]) with
    | some v =>
      simp only [hc]
      exact ih fs (base ++ [c]) q m h
    | none =>
      have hq : ¬ q = base ++ [c] := fun hh => by rw [hh] at h; simp [h] at hc
      have h' : fsLookup (fsSet fs (base ++ [c]) .dir) q = some m := by
        rw [fsLookup_fsSet_ne fs (base ++ [c]) q .dir hq]; exact h
      simp only [hc]
      exact ih (fsSet fs (base ++ [c]) FsNode.dir) (base ++ [c]) q m h'

theorem mkdirAll_preserves_some (fs : Fs) (p q : FsPath) (m : FsNode)
    (h : fsLookup fs q = some m) : fsLookup (mkdirAll fs p).1 q = some m :=
  mkdirAllFrom_preserves_some p fs [] q m h

theorem parentStep_preserves_some (fs : Fs) (parent q : FsPath) (m : FsNode)
    (h : fsLookup fs q = some m) : fsLookup (parentStep fs parent).1 q = some m := by
  unfold parentStep
  split
  · exact h
  · exact mkdirAll_preserves_some fs parent q m h

/-- **C6.** For every dotfile entry whose target path is occupied by a
regular file or directory (not a symlink), given that the dotfiles
directory and the entry's source exist, `setup_dotfiles` stops at that
entry with the descriptive occupied-target error: the occupied node is
left untouched at the target path (no removal, no symlink creation
there), and the result is the same whatever entries follow — subsequent
entries are never processed. -/
theorem setup_dotfiles_occupied_fails (dotfilesDir home : FsPath) (fs : Fs)
    (e : DotfileEntry) (n : FsNode)
    (hdir : (fsLookup fs dotfilesDir).isSome = true)
    (horig : (fsLookup fs (resolveEntry dotfilesDir home e).1).isSome = true)
    (hocc : fsLookup fs (resolveEntry dotfilesDir home e).2 = some n)
    (hnotlink : ∀ t, ¬ n = FsNode.symlink t) :
    ∃ fs' w,
      (∀ rest : List DotfileEntry,
        setup_dotfiles ⟨e :: rest⟩ dotfilesDir home fs
          = (fs', w, some (DotErr.dotfileError occupiedMsg)))
      ∧ fsLookup fs' (resolveEntry dotfilesDir home e).2 = some n := by
  have hlk1 : fsLookup (parentStep fs ((resolveEntry dotfilesDir home e).2).dropLast).1
      (resolveEntry dotfilesDir home e).2 = some n :=
    parentStep_preserves_some fs _ _ n hocc
  have hpe : processEntry dotfilesDir home fs e
      = ((parentStep fs ((resolveEntry dotfilesDir home e).2).dropLast).1,
         (parentStep fs ((resolveEntry dotfilesDir home e).2).dropLast).2,
         some (.dotfileError occupiedMsg)) := by
    unfold processEntry
    cases n with
    | symlink t => exact absurd rfl (hnotlink t)
    | file => simp only [horig, if_true, hlk1]
    | dir => simp only [horig, if_true, hlk1]
  refine ⟨(parentStep fs ((resolveEntry dotfilesDir home e).2).dropLast).1,
    (parentStep fs ((resolveEntry dotfilesDir home e).2).dropLast).2, ?_, hlk1⟩
  intro rest
  unfold setup_dotfiles
  simp only [hdir, if_true]
  unfold runEntries
  rw [hpe]

/-- Witness for `setup_dotfiles_occupied_fails`: a concrete entry whose
target is occupied by a regular file. -/
theorem setup_dotfiles_occupied_fails_witness :
    ∃ fs' w,
      (∀ rest : List DotfileEntry,
        setup_dotfiles ⟨DotfileEntry.explicit ["a"] ["~", "x"] :: rest⟩ ["df"] ["home"]
            [(["df"], FsNode.dir), (["home"], FsNode.dir), (["df", "a"], FsNode.file),
              (["home", "x"], FsNode.file)]
          = (fs', w, some (DotErr.dotfileError occupiedMsg)))
      ∧ fsLookup fs'
          (resolveEntry ["df"] ["home"] (DotfileEntry.explicit ["a"] ["~", "x"])).2
          = some FsNode.file :=
  setup_dotfiles_occupied_fails ["df"] ["home"]
    [(["df"], FsNode.dir), (["home"], FsNode.dir), (["df", "a"], FsNode.file),
      (["home", "x"], FsNode.file)]
    (DotfileEntry.explicit ["a"] ["~", "x"]) FsNode.file
    (by decide) (by decide) (by decide) (fun t h => by cases h)

/-! ### Invariants for idempotence (claim C7) -/

theorem mkdirAllFrom_creates (comps : List String) :
    ∀ (fs : Fs) (base : FsPath), comps ≠ [] →
      (fsLookup (mkdirAllFrom fs base comps).1 (base ++ comps)).isSome = true := by
  induction comps with
  | nil => intro fs base h; exact absurd rfl h
  | cons c rest ih =>
    intro fs base _
    simp only [mkdirAllFrom]
    cases hc : fsLookup fs (base ++ [c]) with
    | some v =>
      simp only [hc]
      cases rest with
      | nil => simp [mkdirAllFrom, hc]
      | cons d ds =>
        have := ih fs (base ++ [c]) (by simp)
        simpa [List.append_assoc] using this
    | none =>
      simp only [hc]
      cases rest with
      | nil => simp [mkdirAllFrom, fsLookup_fsSet_self]
      | cons d ds =>
        have := ih (fsSet fs (base ++ [c]) FsNode.dir) (base ++ [c]) (by simp)
        simpa [List.append_assoc] using this

theorem parentStep_exists (fs : Fs) (parent : FsPath) :
    (fsLookup (parentStep fs parent).1 parent).isSome = true ∨ parent = [] := by
  unfold parentStep
  by_cases hp : (fsLookup fs parent).isSome = true
  · left; simp [hp]
  · cases hparent : parent with
    | nil => right; rfl
    | cons c rest =>
      left
      simp only [hparent] at hp
      simp only [hp, Bool.false_eq_true, if_false]
      exact mkdirAllFrom_creates (c :: rest) fs [] (by simp)

theorem parentStep_preserves_isSome (fs : Fs) (parent q : FsPath)
    (h : (fsLookup fs q).isSome = true) :
    (fsLookup (parentStep fs parent).1 q).isSome = true := by
  obtain ⟨m, hm⟩ := Option.isSome_iff_exists.mp h
  simp [parentStep_preserves_some fs parent q m hm]

/-- The state of one entry after it has been successfully reconciled: its
source exists, its target's parent exists (or the target is at the
filesystem root), and its target holds a symlink whose stored target is
the resolved source path. -/
def EntryInv (dotfilesDir home : FsPath) (fs : Fs) (e : DotfileEntry) : Prop :=
  (fsLookup fs (resolveEntry dotfilesDir home e).1).isSome = true
  ∧ ((fsLookup fs ((resolveEntry dotfilesDir home e).2).dropLast).isSome = true
      ∨ ((resolveEntry dotfilesDir home e).2).dropLast = [])
  ∧ fsLookup fs (resolveEntry dotfilesDir home e).2
      = some (.symlink (resolveEntry dotfilesDir home e).1)

/-- An already-correct entry is a no-op: no mutation, no error. -/
theorem processEntry_noop (dotfilesDir home : FsPath) (fs : Fs) (e : DotfileEntry)
    (hinv : EntryInv dotfilesDir home fs e) :
    processEntry dotfilesDir home fs e = (fs, 0, none) := by
  obtain ⟨horig, hparent, hlink⟩ := hinv
  have hps : parentStep fs ((resolveEntry dotfilesDir home e).2).dropLast = (fs, 0) := by
    unfold parentStep
    rcases hparent with hp | hp
    · simp [hp]
    · rw [hp]
      split
      · rfl
      · rfl
  unfold processEntry
  simp only [horig, if_true, hps, hlink]

/-- Facts about a successfully processed entry: existing nodes keep their
content except at the entry's target, existence is never destroyed, and
afterwards the entry satisfies its invariant. -/
theorem processEntry_ok_facts (dotfilesDir home : FsPath) (fs fs' : Fs)
    (e : DotfileEntry) (w : Nat)
    (h : processEntry dotfilesDir home fs e = (fs', w, none)) :
    (∀ q m, fsLookup fs q = some m → ¬ q = (resolveEntry dotfilesDir home e).2 →
        fsLookup fs' q = some m)
    ∧ (∀ q, (fsLookup fs q).isSome = true → (fsLookup fs' q).isSome = true)
    ∧ EntryInv dotfilesDir home fs' e := by
  simp only [processEntry] at h
  by_cases horig : (fsLookup fs (resolveEntry dotfilesDir home e).1).isSome = true
  case neg =>
    simp only [horig, Bool.false_eq_true, if_false] at h
    injection h with h1 hrest
    injection hrest with h2 h3
    exact Option.noConfusion h3
  case pos =>
  simp only [horig, if_true] at h
  have hpx := parentStep_exists fs ((resolveEntry dotfilesDir home e).2).dropLast
  cases hm : fsLookup (parentStep fs ((resolveEntry dotfilesDir home e).2).dropLast).1
      (resolveEntry dotfilesDir home e).2 with
  | some node =>
    cases node with
    | symlink t =>
      simp only [hm] at h
      by_cases ht : t = (resolveEntry dotfilesDir home e).1
      · simp only [ht, if_true] at h
        injection h with h1 hrest
        subst h1
        refine ⟨?_, ?_, ?_, ?_, ?_⟩
        · intro q m hq _
          exact parentStep_preserves_some fs _ q m hq
        · intro q hq
          exact parentStep_preserves_isSome fs _ q hq
        · exact parentStep_preserves_isSome fs _ _ horig
        · rcases hpx with hp | hp
          · exact Or.inl hp
          · exact Or.inr hp
        · rw [hm, ht]
      · simp only [ht, if_false] at h
        injection h with h1 hrest
        subst h1
        have hpres : ∀ q m, fsLookup fs q = some m →
            ¬ q = (resolveEntry dotfilesDir home e).2 →
            fsLookup (fsSet (fsRemove (parentStep fs
                ((resolveEntry dotfilesDir home e).2).dropLast).1
                (resolveEntry dotfilesDir home e).2)
              (resolveEntry dotfilesDir home e).2
              (.symlink (resolveEntry dotfilesDir home e).1)) q = some m := by
          intro q m hq hne
          rw [fsLookup_fsSet_ne _ _ _ _ hne, fsLookup_fsRemove_ne _ _ _ hne]
          exact parentStep_preserves_some fs _ q m hq
        refine ⟨hpres, ?_, ?_, ?_, fsLookup_fsSet_self _ _ _⟩
        · intro q hq
          by_cases hqe : q = (resolveEntry dotfilesDir home e).2
          · subst hqe; simp [fsLookup_fsSet_self]
          · obtain ⟨m, hm'⟩ := Option.isSome_iff_exists.mp hq
            simp [hpres q m hm' hqe]
        · by_cases hoe : (resolveEntry dotfilesDir home e).1
              = (resolveEntry dotfilesDir home e).2
          · rw [hoe, fsLookup_fsSet_self]; rfl
          · obtain ⟨m, hm'⟩ := Option.isSome_iff_exists.mp horig
            simp [hpres _ m hm' hoe]
        · rcases hpx with hp | hp
          · by_cases hpe : ((resolveEntry dotfilesDir home e).2).dropLast
                = (resolveEntry dotfilesDir home e).2
            · rw [hpe, fsLookup_fsSet_self]; left; rfl
            · obtain ⟨m, hm'⟩ := Option.isSome_iff_exists.mp hp
              left
              rw [fsLookup_fsSet_ne _ _ _ _ hpe, fsLookup_fsRemove_ne _ _ _ hpe]
              simp [hm']
          · exact Or.inr hp
    | file =>
      simp only [hm] at h
      injection h with h1 hrest
      injection hrest with h2 h3
      exact Option.noConfusion h3
    | dir =>
      simp only [hm] at h
      injection h with h1 hrest
      injection hrest with h2 h3
      exact Option.noConfusion h3
  | none =>
    simp only [hm] at h
    injection h with h1 hrest
    subst h1
    have hpres : ∀ q m, fsLookup fs q = some m →
        ¬ q = (resolveEntry dotfilesDir home e).2 →
        fsLookup (fsSet (parentStep fs ((resolveEntry dotfilesDir home e).2).dropLast).1
          (resolveEntry dotfilesDir home e).2
          (.symlink (resolveEntry dotfilesDir home e).1)) q = some m := by
      intro q m hq hne
      rw [fsLookup_fsSet_ne _ _ _ _ hne]
      exact parentStep_preserves_some fs _ q m hq
    refine ⟨hpres, ?_, ?_, ?_, fsLookup_fsSet_self _ _ _⟩
    · intro q hq
      by_cases hqe : q = (resolveEntry dotfilesDir home e).2
      · subst hqe; simp [fsLookup_fsSet_self]
      · obtain ⟨m, hm'⟩ := Option.isSome_iff_exists.mp hq
        simp [hpres q m hm' hqe]
    · by_cases hoe : (resolveEntry dotfilesDir home e).1
          = (resolveEntry dotfilesDir home e).2
      · rw [hoe, fsLookup_fsSet_self]; rfl
      · obtain ⟨m, hm'⟩ := Option.isSome_iff_exists.mp horig
        simp [hpres _ m hm' hoe]
    · rcases hpx with hp | hp
      · by_cases hpe : ((resolveEntry dotfilesDir home e).2).dropLast
            = (resolveEntry dotfilesDir home e).2
        · rw [hpe, fsLookup_fsSet_self]; left; rfl
        · obtain ⟨m, hm'⟩ := Option.isSome_iff_exists.mp hp
          left
          rw [fsLookup_fsSet_ne _ _ _ _ hpe]
          simp [hm']
      · exact Or.inr hp

/-- Facts about a successful run: existence is never destroyed, existing
nodes keep their content except at the entries' targets, and afterwards
every entry satisfies its invariant (this last part needs the targets to
be pairwise distinct, so that no later entry re-points an earlier
entry's target). -/
theorem runEntries_ok_facts (dotfilesDir home : FsPath) (es : List DotfileEntry) :
    ∀ (fs fs' : Fs) (w : Nat),
      runEntries dotfilesDir home fs es = (fs', w, none) →
      (es.map (fun e => (resolveEntry dotfilesDir home e).2)).Nodup →
      ((∀ q, (fsLookup fs q).isSome = true → (fsLookup fs' q).isSome = true)
        ∧ (∀ q m, fsLookup fs q = some m →
            (∀ e ∈ es, ¬ q = (resolveEntry dotfilesDir home e).2) →
            fsLookup fs' q = some m)
        ∧ (∀ e ∈ es, EntryInv dotfilesDir home fs' e)) := by
  induction es with
  | nil =>
    intro fs fs' w h _
    simp only [runEntries] at h
    injection h with h1 hrest
    subst h1
    exact ⟨fun q hq => hq, fun q m hq _ => hq, fun e he => absurd he (List.not_mem_nil e)⟩
  | cons e es ih =>
    intro fs fs' w h hnd
    simp only [runEntries] at h
    rcases hpe : processEntry dotfilesDir home fs e with ⟨fs1, w1, er⟩
    cases er with
    | some er0 =>
      simp only [hpe] at h
      injection h with h1 hrest
      injection hrest with h2 h3
      exact Option.noConfusion h3
    | none =>
      simp only [hpe] at h
      rcases hr : runEntries dotfilesDir home fs1 es with ⟨fs2, w2, er2⟩
      simp only [hr] at h
      injection h with h1 hrest
      injection hrest with h2 h3
      subst h1
      subst h3
      obtain ⟨hnotin, hndtl⟩ := List.nodup_cons.mp hnd
      obtain ⟨ihmono, ihpres, ihinv⟩ := ih fs1 fs2 w2 hr hndtl
      obtain ⟨apres, amono, ainv⟩ := processEntry_ok_facts dotfilesDir home fs fs1 e w1 hpe
      refine ⟨fun q hq => ihmono q (amono q hq), ?_, ?_⟩
      · intro q m hq hne
        exact ihpres q m (apres q m hq (hne e (List.mem_cons_self e es)))
          (fun e2 he2 => hne e2 (List.mem_cons_of_mem e he2))
      · intro e2 he2
        rcases List.mem_cons.mp he2 with he0 | hetl
        · subst he0
          obtain ⟨horig, hparent, hlink⟩ := ainv
          refine ⟨ihmono _ horig, ?_, ?_⟩
          · rcases hparent with hp | hp
            · exact Or.inl (ihmono _ hp)
            · exact Or.inr hp
          · refine ihpres _ _ hlink ?_
            intro e3 he3 heq
            refine hnotin ?_
            simp only [List.mem_map]
            exact ⟨e3, he3, heq.symm⟩
        · exact ihinv e2 hetl

/-- A run over entries that are all already correct performs no mutation,
changes nothing, and succeeds. -/
theorem runEntries_noop (dotfilesDir home : FsPath) (es : List DotfileEntry) :
    ∀ fs : Fs, (∀ e ∈ es, EntryInv dotfilesDir home fs e) →
      runEntries dotfilesDir home fs es = (fs, 0, none) := by
  induction es with
  | nil => intro fs _; rfl
  | cons e es ih =>
    intro fs hinv
    have hpe := processEntry_noop dotfilesDir home fs e (hinv e (List.mem_cons_self e es))
    simp only [runEntries, hpe]
    simp [ih fs (fun e2 he2 => hinv e2 (List.mem_cons_of_mem e he2))]

/-- **C7, amended.** An entry whose target already holds a symlink to its
resolved source (with the source present and the target's parent present)
is reconciled with zero filesystem mutations and no error, and the run
proceeds past it; consequently, provided no two entries resolve to the
same target link path, running the full reconciliation a second time
immediately after a successful run performs no writes and leaves the
filesystem unchanged. -/
theorem setup_dotfiles_idempotent :
    (∀ (dotfilesDir home : FsPath) (fs : Fs) (e : DotfileEntry),
        EntryInv dotfilesDir home fs e →
        processEntry dotfilesDir home fs e = (fs, 0, none))
    ∧ ∀ (dots : Dotfiles) (dotfilesDir home : FsPath) (fs fs1 : Fs) (w1 : Nat),
        (dots.files.map (fun e => (resolveEntry dotfilesDir home e).2)).Nodup →
        setup_dotfiles dots dotfilesDir home fs = (fs1, w1, none) →
        setup_dotfiles dots dotfilesDir home fs1 = (fs1, 0, none) := by
  constructor
  · exact fun dotfilesDir home fs e hinv => processEntry_noop dotfilesDir home fs e hinv
  · intro dots dotfilesDir home fs fs1 w1 hnd h
    unfold setup_dotfiles at h ⊢
    by_cases hdir : (fsLookup fs dotfilesDir).isSome = true
    case neg =>
      simp only [hdir, Bool.false_eq_true, if_false] at h
      injection h with h1 hrest
      injection hrest with h2 h3
      exact Option.noConfusion h3
    case pos =>
      simp only [hdir, if_true] at h
      obtain ⟨hmono, hpres, hinv⟩ :=
        runEntries_ok_facts dotfilesDir home dots.files fs fs1 w1 h hnd
      have hdir1 : (fsLookup fs1 dotfilesDir).isSome = true := hmono dotfilesDir hdir
      simp only [hdir1, if_true]
      exact runEntries_noop dotfilesDir home dots.files fs1 hinv

/-- Dotfiles configuration whose two entries resolve to the same target
path but different sources. -/
def dupLinkDots : Dotfiles :=
  ⟨[.explicit ["a"] ["~", "x"], .explicit ["b"] ["~", "x"]]⟩

/-- Initial filesystem for the duplicate-target scenario. -/
def dupLinkFs : Fs :=
  [(["df"], .dir), (["home"], .dir), (["df", "a"], .file), (["df", "b"], .file)]

/-- **C7, counterexample.** With two entries sharing one target path (and
different sources), the first run succeeds, yet the second run performs
writes (the two entries keep re-pointing the shared target at each
other's source), refuting the unconditional claim that a second run
immediately after a successful run performs no writes. -/
theorem setup_dotfiles_second_run_counterexample :
    (setup_dotfiles dupLinkDots ["df"] ["home"] dupLinkFs).2.2 = none
    ∧ ¬ (setup_dotfiles dupLinkDots ["df"] ["home"]
        (setup_dotfiles dupLinkDots ["df"] ["home"] dupLinkFs).1).2.1 = 0 := by
  constructor <;> decide

/-- Witness for `setup_dotfiles_idempotent` at concrete inputs: a
correctly-linked entry is a no-op, and a one-entry configuration is
idempotent after its first run. -/
theorem setup_dotfiles_idempotent_witness :
    processEntry ["df"] ["home"]
        [(["home", "x"], FsNode.symlink ["df", "a"]), (["df"], FsNode.dir),
          (["home"], FsNode.dir), (["df", "a"], FsNode.file)]
        (.explicit ["a"] ["~", "x"])
      = ([(["home", "x"], FsNode.symlink ["df", "a"]), (["df"], FsNode.dir),
          (["home"], FsNode.dir), (["df", "a"], FsNode.file)], 0, none)
    ∧ setup_dotfiles ⟨[.explicit ["a"] ["~", "x"]]⟩ ["df"] ["home"]
        [(["home", "x"], FsNode.symlink ["df", "a"]), (["df"], FsNode.dir),
          (["home"], FsNode.dir), (["df", "a"], FsNode.file)]
      = ([(["home", "x"], FsNode.symlink ["df", "a"]), (["df"], FsNode.dir),
          (["home"], FsNode.dir), (["df", "a"], FsNode.file)], 0, none) :=
  ⟨setup_dotfiles_idempotent.1 ["df"] ["home"] _ (.explicit ["a"] ["~", "x"])
      ⟨by decide, Or.inl (by decide), by decide⟩,
    setup_dotfiles_idempotent.2 ⟨[.explicit ["a"] ["~", "x"]]⟩ ["df"] ["home"]
      [(["df"], FsNode.dir), (["home"], FsNode.dir), (["df", "a"], FsNode.file)] _ 1
      (by decide) (by decide)⟩

end Omiros
